import Mathlib

/-!
Verification of the annotation/paint engine of the `immedipaste` screenshot
utility (source: `annotation_editor.py`), as a shallow embedding in Lean 4.

Conventions of the embedding:
* Python floats are modelled as exact rationals (`ℚ`).
* Qt collaborators (the raster paint engine, font metrics, image scaling and
  the real-valued math functions `cos`/`sin`/`atan2`/`hypot`) are external to
  the repository; they are modelled as explicit parameters, so every theorem
  holds for every interpretation of those collaborators.  Per the design
  document these are "external collaborators exposing only the interfaces the
  annotation engine needs".
* `hypot(dx, dy) < c` (for `c ≥ 0`) is translated as `dx^2 + dy^2 < c^2`,
  which is an exact equivalence over the reals.
* The class names of the source end in a word the project style forbids for
  Lean identifiers, so the tagged union `FreehandAnnotation | ... |
  TextAnnotation` is embedded as the inductive `Annot` with one constructor
  per source dataclass, and `_paint_annotation` becomes `paint_annot`.
-/

set_option maxHeartbeats 1000000

/-- A 2D point in image space (source: `QPointF`, coordinates are floats). -/
structure Pt where
  x : ℚ
  y : ℚ
  deriving DecidableEq, Repr

/-- An axis-aligned rectangle (source: `QRectF`: origin plus width/height). -/
structure RectQ where
  x : ℚ
  y : ℚ
  w : ℚ
  h : ℚ
  deriving DecidableEq, Repr

/-- QRectF.adjust(dx1, dy1, dx2, dy2): moves the corners by the offsets. -/
def RectQ.adjust (r : RectQ) (dx1 dy1 dx2 dy2 : ℚ) : RectQ :=
  ⟨r.x + dx1, r.y + dy1, r.w + (dx2 - dx1), r.h + (dy2 - dy1)⟩

/-- QRectF.contains(point): true when the point is inside or on the edge of
the rectangle; Qt normalises a negative width/height by swapping the edges. -/
def RectQ.containsPt (r : RectQ) (p : Pt) : Bool :=
  let l := min r.x (r.x + r.w)
  let rr := max r.x (r.x + r.w)
  let t := min r.y (r.y + r.h)
  let b := max r.y (r.y + r.h)
  decide (l ≤ p.x) && decide (p.x ≤ rr) && decide (t ≤ p.y) && decide (p.y ≤ b)

/-- An RGBA color (source: `QColor`). -/
structure Rgba where
  r : ℕ
  g : ℕ
  b : ℕ
  a : ℕ
  deriving DecidableEq, Repr

/-- DEFAULT_COLOR = QColor(255, 0, 0). -/
def DEFAULT_COLOR : Rgba := ⟨255, 0, 0, 255⟩

/-- MIN_DRAG_SIZE = 3 (minimum commit size, in image-space pixels). -/
def MIN_DRAG_SIZE : ℚ := 3

/-- The tagged union of the five source dataclasses (`FreehandAnnotation`,
`ArrowAnnotation`, `OvalAnnotation`, `RectAnnotation`, `TextAnnotation`);
field order and names follow the source, with `stop` for the reserved word
`end`. -/
inductive Annot where
  | freehand (points : List Pt) (color : Rgba) (width : ℚ)
  | arrow (start stop : Pt) (color : Rgba) (width : ℚ) (style : String)
  | oval (rect : RectQ) (color : Rgba) (width : ℚ)
  | rect (rect : RectQ) (color : Rgba) (width : ℚ)
  | text (position : Pt) (content : String) (color : Rgba) (font_size : ℤ)
  deriving DecidableEq, Repr

/-- ARROW_STYLES = ("open", "standard", "double") from the source. -/
def ARROW_STYLES : List String := ["open", "standard", "double"]

/-- ARROW_STYLE_LABELS dict from the source (`open` ↦ `Hollow`, …). -/
def arrowStyleLabel (s : String) : Option String :=
  if s = "open" then some "Hollow"
  else if s = "standard" then some "Filled"
  else if s = "double" then some "Double"
  else none

-- -- Geometry / transform mapper ----------------------------------------------

/-- The display layout computed by `_compute_layout`: the rectangle the scaled
image occupies on screen (`self._image_rect`) and the display scale. -/
structure Layout where
  rect_x : ℤ
  rect_y : ℤ
  rect_w : ℤ
  rect_h : ℤ
  scale : ℚ
  deriving DecidableEq, Repr

/-- Translation of `_compute_layout`: `scale = min(sw/iw, sh/ih, 1.0)` (never
upscale), integer-truncated display size, centered with floor division.  The
truncation `int(...)` and Python `//` agree with `Int.floor` and Lean `/` here
because all quantities are nonnegative. -/
def compute_layout (sw sh iw ih : ℤ) : Layout :=
  if iw ≤ 0 ∨ ih ≤ 0 then ⟨0, 0, sw, sh, 1⟩
  else
    let scale : ℚ := min ((sw : ℚ) / (iw : ℚ)) (min ((sh : ℚ) / (ih : ℚ)) 1)
    let dw : ℤ := ⌊(iw : ℚ) * scale⌋
    let dh : ℤ := ⌊(ih : ℚ) * scale⌋
    ⟨(sw - dw) / 2, (sh - dh) / 2, dw, dh, scale⟩

/-- Translation of `_to_image_coords`: inverse transform, then `None` when the
image-space coordinate falls outside `[0, iw) × [0, ih)`. -/
def to_image_coords (lay : Layout) (iw ih : ℤ) (sx sy : ℤ) : Option Pt :=
  if lay.scale ≤ 0 then none
  else
    let x : ℚ := ((sx : ℚ) - (lay.rect_x : ℚ)) / lay.scale
    let y : ℚ := ((sy : ℚ) - (lay.rect_y : ℚ)) / lay.scale
    if x < 0 ∨ y < 0 ∨ (iw : ℚ) ≤ x ∨ (ih : ℚ) ≤ y then none
    else some ⟨x, y⟩

/-- Translation of `_clamp_to_image`: inverse transform, clamped to
`[0, iw-1] × [0, ih-1]`. -/
def clamp_to_image (lay : Layout) (iw ih : ℤ) (sx sy : ℤ) : Pt :=
  if lay.scale ≤ 0 then ⟨0, 0⟩
  else
    let x : ℚ := ((sx : ℚ) - (lay.rect_x : ℚ)) / lay.scale
    let y : ℚ := ((sy : ℚ) - (lay.rect_y : ℚ)) / lay.scale
    ⟨max 0 (min x ((iw : ℚ) - 1)), max 0 (min y ((ih : ℚ) - 1))⟩

-- -- Edit session / history ----------------------------------------------------

/-- The mutable editor fields relevant to the edit session: the committed
list `_undo_stack`, the `_redo_stack`, the `_drawing` gesture flag, the
in-progress `_current_ann`, and `_dragging_text_idx`.  The end of each list is
the top of the stack, as in the Python lists. -/
structure EditorState where
  undo_stack : List Annot
  redo_stack : List Annot
  drawing : Bool
  current_ann : Option Annot
  dragging_text_idx : Option ℕ
  deriving DecidableEq, Repr

/-- Translation of `_undo`: no-op while a gesture is in progress or when the
committed list is empty; otherwise pop the last committed onto redo. -/
def undo (s : EditorState) : EditorState :=
  if s.drawing then s
  else
    match s.undo_stack.getLast? with
    | none => s
    | some ann =>
      { s with undo_stack := s.undo_stack.dropLast,
               redo_stack := s.redo_stack ++ [ann] }

/-- Translation of `_redo`: the mirror image of `undo`. -/
def redo (s : EditorState) : EditorState :=
  if s.drawing then s
  else
    match s.redo_stack.getLast? with
    | none => s
    | some ann =>
      { s with redo_stack := s.redo_stack.dropLast,
               undo_stack := s.undo_stack ++ [ann] }

/-- Committing an annotation (`self._undo_stack.append(ann);
self._redo_stack.clear()`, the shared tail of `mouseReleaseEvent` and
`_confirm_text_input`). -/
def commit (s : EditorState) (ann : Annot) : EditorState :=
  { s with undo_stack := s.undo_stack ++ [ann], redo_stack := [] }

/-- The minimum-size discard test of `mouseReleaseEvent`.  The arrow case
translates `math.hypot(dx, dy) < MIN_DRAG_SIZE` into the exactly equivalent
squared comparison. -/
def min_size_discard : Annot → Bool
  | .freehand pts _ _ => decide (pts.length < 2)
  | .arrow st en _ _ _ =>
      decide ((en.x - st.x) ^ 2 + (en.y - st.y) ^ 2 < MIN_DRAG_SIZE ^ 2)
  | .oval r _ _ => decide (r.w < MIN_DRAG_SIZE) && decide (r.h < MIN_DRAG_SIZE)
  | .rect r _ _ => decide (r.w < MIN_DRAG_SIZE) && decide (r.h < MIN_DRAG_SIZE)
  | .text _ _ _ _ => false

/-- Translation of the left-button `mouseReleaseEvent`: finish a text drag,
ignore a release outside a gesture, and otherwise end the Drawing gesture,
silently discarding the in-progress annotation when it fails the
minimum-size rule and committing it (clearing redo) otherwise. -/
def mouse_release (s : EditorState) : EditorState :=
  if s.dragging_text_idx.isSome then
    { s with dragging_text_idx := none, drawing := false }
  else if !s.drawing then s
  else
    match s.current_ann with
    | none => { s with drawing := false }
    | some ann =>
      if min_size_discard ann then
        { s with drawing := false, current_ann := none }
      else
        { s with drawing := false, current_ann := none,
                 undo_stack := s.undo_stack ++ [ann], redo_stack := [] }

/-- Iterated `undo` (outermost call last). -/
def undoN : ℕ → EditorState → EditorState
  | 0, s => s
  | n + 1, s => undo (undoN n s)

/-- Iterated `redo` (innermost call first). -/
def redoN : ℕ → EditorState → EditorState
  | 0, s => s
  | n + 1, s => redoN n (redo s)

/-- Committing a list of annotations in order. -/
def commitN (s : EditorState) (anns : List Annot) : EditorState :=
  anns.foldl commit s

-- -- Renderer / compositor model ----------------------------------------------

/-- A bitmap: pixel dimensions plus a pixel function (source: `QImage`).  For
claims about pixel identity only `px` on the in-range domain matters. -/
structure Bitmap where
  width : ℕ
  height : ℕ
  px : ℕ → ℕ → Rgba

/-- Pen cap style constants used by the source pens. -/
inductive CapStyle where
  | flat
  | square
  | round
  deriving DecidableEq, Repr

/-- Pen join style constants used by the source pens. -/
inductive JoinStyle where
  | miter
  | bevel
  | round
  deriving DecidableEq, Repr

/-- A QPen: color, width and the cap/join configuration. -/
structure Pen where
  color : Rgba
  width : ℚ
  cap : CapStyle
  join : JoinStyle
  deriving DecidableEq, Repr

/-- One drawing-surface primitive call, recording the QPainter method and all
of its arguments.  `transformed` records that a call happened under the
translate+scale display transform of `paintEvent`. -/
inductive Cmd where
  | fillAll (c : Rgba)
  | drawImage (ox oy : ℤ) (img : Bitmap)
  | strokePath (pts : List Pt) (pen : Pen)
  | strokeLine (a b : Pt) (pen : Pen)
  | fillPolygon (pts : List Pt) (c : Rgba)
  | strokePolygon (pts : List Pt) (pen : Pen)
  | strokeEllipse (r : RectQ) (pen : Pen)
  | strokeRect (r : RectQ) (pen : Pen)
  | drawText (pos : Pt) (s : String) (c : Rgba) (font_size : ℤ)
  | transformed (tx ty scale : ℚ) (c : Cmd)

/-- Modelled from the spec: the external drawing surface ("a target surface
capable of accepting stroke/fill drawing primitives … under an affine
transform").  A rasterizer gives, for each primitive call and pixel, the
opaque color that call paints there, or `none` when the pixel is untouched. -/
def Raster : Type := Cmd → ℕ → ℕ → Option Rgba

/-- Modelled from the spec: the real-valued math functions of the `math`
module (`cos`, `sin`, `atan2`, `hypot`, `radians`, `pi`), which have no exact
rational embedding; theorems quantify over every interpretation. -/
structure MathOps where
  cos : ℚ → ℚ
  sin : ℚ → ℚ
  atan2 : ℚ → ℚ → ℚ
  hypot : ℚ → ℚ → ℚ
  radians : ℚ → ℚ
  pi : ℚ

/-- Apply one primitive to a bitmap: painted pixels take the painted color,
all other pixels keep their previous value. -/
def applyCmd (rast : Raster) (img : Bitmap) (c : Cmd) : Bitmap :=
  { img with px := fun x y => (rast c x y).getD (img.px x y) }

/-- Apply a list of primitives in order. -/
def applyCmds (rast : Raster) (img : Bitmap) (cmds : List Cmd) : Bitmap :=
  cmds.foldl (applyCmd rast) img

/-- Translation of `_arrow_dimensions`: shaft width is the stroke width; head
size is four times the stroke width, capped at 45% of the arrow length, then
floored at 6 units. -/
def arrow_dimensions (width length : ℚ) : ℚ × ℚ :=
  let shaft_width := width
  let head_size := width * 4
  let head_size := min head_size (length * (45 / 100))
  let head_size := max head_size 6
  (shaft_width, head_size)

/-- Translation of `_paint_freehand`: skipped below 2 points, else one path
stroke with a round-cap round-join pen. -/
def paint_freehand (points : List Pt) (color : Rgba) (width : ℚ) : List Cmd :=
  if points.length < 2 then []
  else [Cmd.strokePath points ⟨color, width, CapStyle.round, JoinStyle.round⟩]

/-- Translation of `_draw_filled_head`: one filled triangle at the tip. -/
def draw_filled_head (m : MathOps) (tip : Pt) (angle size spread : ℚ)
    (color : Rgba) : List Cmd :=
  let p1 : Pt := ⟨tip.x - size * m.cos (angle - spread),
                  tip.y - size * m.sin (angle - spread)⟩
  let p2 : Pt := ⟨tip.x - size * m.cos (angle + spread),
                  tip.y - size * m.sin (angle + spread)⟩
  [Cmd.fillPolygon [tip, p1, p2] color]

/-- Translation of `_paint_arrow_filled`: shaft pulled back from the tip(s),
then one filled head (two for the `double` style, back head first). -/
def paint_arrow_filled (m : MathOps) (start stop : Pt) (color : Rgba)
    (style : String) (angle shaft_width head_size : ℚ) : List Cmd :=
  let pen : Pen := ⟨color, shaft_width, CapStyle.flat, JoinStyle.miter⟩
  let shaft_start := start
  let shaft_end_x := stop.x - m.cos angle * head_size * (7 / 10)
  let shaft_end_y := stop.y - m.sin angle * head_size * (7 / 10)
  let shaft_start :=
    if style = "double" then
      (⟨start.x + m.cos angle * head_size * (7 / 10),
        start.y + m.sin angle * head_size * (7 / 10)⟩ : Pt)
    else shaft_start
  let spread := m.radians 25
  [Cmd.strokeLine shaft_start ⟨shaft_end_x, shaft_end_y⟩ pen]
    ++ (if style = "double" then
          draw_filled_head m start (angle + m.pi) head_size spread color
        else [])
    ++ draw_filled_head m stop angle head_size spread color

/-- Translation of `_paint_arrow_hollow`: the kite-shaped outline polygon. -/
def paint_arrow_hollow (m : MathOps) (start stop : Pt) (color : Rgba)
    (width : ℚ) (angle shaft_width head_size : ℚ) : List Cmd :=
  let spread := m.radians 30
  let perp_x := -m.sin angle
  let perp_y := m.cos angle
  let half_shaft := shaft_width * (1 / 2)
  let head_wing := head_size * m.sin spread
  let s_top : Pt := ⟨start.x + perp_x * half_shaft, start.y + perp_y * half_shaft⟩
  let s_bot : Pt := ⟨start.x - perp_x * half_shaft, start.y - perp_y * half_shaft⟩
  let hx := stop.x - m.cos angle * head_size
  let hy := stop.y - m.sin angle * head_size
  let h_top : Pt := ⟨hx + perp_x * half_shaft, hy + perp_y * half_shaft⟩
  let h_bot : Pt := ⟨hx - perp_x * half_shaft, hy - perp_y * half_shaft⟩
  let wing_top : Pt := ⟨hx + perp_x * head_wing, hy + perp_y * head_wing⟩
  let wing_bot : Pt := ⟨hx - perp_x * head_wing, hy - perp_y * head_wing⟩
  let outline := [s_top, h_top, wing_top, stop, wing_bot, h_bot, s_bot]
  let outline_pen : Pen :=
    ⟨color, max (3 / 2) (width * (4 / 10)), CapStyle.round, JoinStyle.miter⟩
  [Cmd.strokePolygon outline outline_pen]

/-- Translation of `_paint_arrow`: skipped below length 1; hollow for the
`open` style, filled otherwise. -/
def paint_arrow (m : MathOps) (start stop : Pt) (color : Rgba) (width : ℚ)
    (style : String) : List Cmd :=
  let dx := stop.x - start.x
  let dy := stop.y - start.y
  let length := m.hypot dx dy
  if length < 1 then []
  else
    let angle := m.atan2 dy dx
    let dims := arrow_dimensions width length
    if style = "open" then
      paint_arrow_hollow m start stop color width angle dims.1 dims.2
    else
      paint_arrow_filled m start stop color style angle dims.1 dims.2

/-- Translation of `_paint_oval`: one stroked ellipse (default cap/join). -/
def paint_oval (rect : RectQ) (color : Rgba) (width : ℚ) : List Cmd :=
  [Cmd.strokeEllipse rect ⟨color, width, CapStyle.square, JoinStyle.bevel⟩]

/-- Translation of `_paint_rect`: one stroked rectangle (default cap/join). -/
def paint_rect (rect : RectQ) (color : Rgba) (width : ℚ) : List Cmd :=
  [Cmd.strokeRect rect ⟨color, width, CapStyle.square, JoinStyle.bevel⟩]

/-- Translation of `_paint_text`: one text draw at the baseline position. -/
def paint_text (position : Pt) (content : String) (color : Rgba)
    (font_size : ℤ) : List Cmd :=
  [Cmd.drawText position content color font_size]

/-- Translation of `_paint_annotation`: dispatch on the variant tag. -/
def paint_annot (m : MathOps) : Annot → List Cmd
  | .freehand pts c w => paint_freehand pts c w
  | .arrow st en c w style => paint_arrow m st en c w style
  | .oval r c w => paint_oval r c w
  | .rect r c w => paint_rect r c w
  | .text p t c fs => paint_text p t c fs

/-- The primitive calls issued by `_composite`: every committed annotation in
insertion order, at 1:1 scale with no display transform. -/
def composite_cmds (m : MathOps) (anns : List Annot) : List Cmd :=
  (anns.map (paint_annot m)).flatten

/-- Translation of `_composite`: copy the source bitmap, then replay the
per-variant drawing routines onto the copy. -/
def composite (rast : Raster) (m : MathOps) (img : Bitmap)
    (anns : List Annot) : Bitmap :=
  applyCmds rast img (composite_cmds m anns)

/-- The dim backdrop color `QColor(0, 0, 0, 180)` of the editor background. -/
def DIM_COLOR : Rgba := ⟨0, 0, 0, 180⟩

/-- The primitive calls issued by one `paintEvent` pass: the pre-rendered
background pixmap (dim fill, then the image scaled to the display rectangle,
drawn at the rectangle origin), then every committed annotation and finally
the in-progress annotation, all under the translate+scale display transform.
`scaleImg` stands for the external `QImage.scaled`. -/
def paint_event_cmds (m : MathOps) (scaleImg : Bitmap → ℤ → ℤ → Bitmap)
    (img : Bitmap) (lay : Layout) (committed : List Annot) (drawing : Bool)
    (current : Option Annot) : List Cmd :=
  [Cmd.fillAll DIM_COLOR,
   Cmd.drawImage lay.rect_x lay.rect_y (scaleImg img lay.rect_w lay.rect_h)]
    ++ ((composite_cmds m committed).map
          (Cmd.transformed (lay.rect_x : ℚ) (lay.rect_y : ℚ) lay.scale))
    ++ (match drawing, current with
        | true, some ann =>
            (paint_annot m ann).map
              (Cmd.transformed (lay.rect_x : ℚ) (lay.rect_y : ℚ) lay.scale)
        | _, _ => [])

/-- What `paintEvent` paints onto the widget canvas. -/
def render_display (rast : Raster) (m : MathOps)
    (scaleImg : Bitmap → ℤ → ℤ → Bitmap) (canvas img : Bitmap) (lay : Layout)
    (committed : List Annot) (drawing : Bool) (current : Option Annot) :
    Bitmap :=
  applyCmds rast canvas (paint_event_cmds m scaleImg img lay committed drawing current)

/-- The on-screen render when the display area has exactly the image's native
size, so the layout degenerates to scale 1 and zero offset, with no gesture in
progress. -/
def render_native (rast : Raster) (m : MathOps)
    (scaleImg : Bitmap → ℤ → ℤ → Bitmap) (canvas img : Bitmap)
    (committed : List Annot) : Bitmap :=
  let lay := compute_layout (img.width : ℤ) (img.height : ℤ)
      (img.width : ℤ) (img.height : ℤ)
  render_display rast m scaleImg canvas img lay committed false none

-- -- Text hit-testing ----------------------------------------------------------

/-- Translation of `_text_bounding_rect`: the font-metrics bounding rectangle
offset to the annotation's baseline position.  `metrics` stands for the
external `QFontMetricsF.boundingRect` at a given point size. -/
def text_bounding_rect (metrics : ℤ → String → RectQ) (position : Pt)
    (content : String) (font_size : ℤ) : RectQ :=
  let br := metrics font_size content
  ⟨position.x + br.x, position.y + br.y, br.w, br.h⟩

/-- Whether `_hit_test_text` accepts one annotation: it must be a text
annotation and its bounding rectangle, padded by 4 units on each side
(`rect.adjust(-4, -4, 4, 4)`), must contain the point. -/
def is_text_hit (metrics : ℤ → String → RectQ) (ann : Annot) (p : Pt) : Bool :=
  match ann with
  | .text pos txt _ fs =>
      ((text_bounding_rect metrics pos txt fs).adjust (-4) (-4) 4 4).containsPt p
  | _ => false

/-- The loop of `_hit_test_text`: `for i in range(len - 1, -1, -1)`, returning
the first (hence highest) accepted index. -/
def hit_test_text_aux (metrics : ℤ → String → RectQ) (stack : List Annot)
    (p : Pt) : ℕ → Option ℕ
  | 0 => none
  | n + 1 =>
    match stack[n]? with
    | some ann =>
        if is_text_hit metrics ann p then some n
        else hit_test_text_aux metrics stack p n
    | none => hit_test_text_aux metrics stack p n

/-- Translation of `_hit_test_text`. -/
def hit_test_text (metrics : ℤ → String → RectQ) (stack : List Annot)
    (p : Pt) : Option ℕ :=
  hit_test_text_aux metrics stack p stack.length

/-- The acceptance test at an index of the committed list (false when the
index is out of range). -/
def hit_at (metrics : ℤ → String → RectQ) (stack : List Annot) (p : Pt)
    (i : ℕ) : Bool :=
  match stack[i]? with
  | some ann => is_text_hit metrics ann p
  | none => false

-- -- Tool resolution -----------------------------------------------------------

/-- The `modifier_tools` configuration dict: one optional entry per modifier
key (a missing entry falls back to the built-in default). -/
structure ModifierTools where
  shift : Option String
  ctrl : Option String
  alt : Option String
  deriving DecidableEq, Repr

/-- The held-modifier flags of a pointer event. -/
structure Modifiers where
  shift : Bool
  ctrl : Bool
  alt : Bool
  deriving DecidableEq, Repr

/-- Translation of `_tool_from_modifiers`: Shift, then Ctrl, then Alt, with
dict defaults `arrow`/`oval`/`text`; no modifier falls back to the toolbar
selection, and a winning slot configured `none` also falls back to the
toolbar selection. -/
def tool_from_modifiers (cfg : ModifierTools) (toolbar_tool : String)
    (mods : Modifiers) : String :=
  let slot : Option String :=
    if mods.shift then some (cfg.shift.getD "arrow")
    else if mods.ctrl then some (cfg.ctrl.getD "oval")
    else if mods.alt then some (cfg.alt.getD "text")
    else none
  match slot with
  | none => toolbar_tool
  | some tool => if tool = "none" then toolbar_tool else tool

-- -- Remaining definitions (pixel-lookup helper and concrete instances) --------

/-- The color the command list paints at one pixel (the latest primitive that
paints the pixel wins), or `none` when no primitive touches it. -/
def paintAt (rast : Raster) (x y : ℕ) : List Cmd → Option Rgba
  | [] => none
  | c :: cs =>
    match paintAt rast x y cs with
    | some v => some v
    | none => rast c x y

/-- A sample committed annotation used by concrete witnesses. -/
def sampleAnn : Annot := .rect ⟨0, 0, 10, 10⟩ DEFAULT_COLOR 2

/-- A second sample committed annotation used by concrete witnesses. -/
def sampleAnn2 : Annot := .oval ⟨1, 1, 5, 5⟩ DEFAULT_COLOR 2

/-- A concrete 1×1 bitmap used by witnesses. -/
def wImg : Bitmap := ⟨1, 1, fun _ _ => DEFAULT_COLOR⟩

/-- A concrete interpretation of the external math functions, used only to
instantiate theorems that hold for every interpretation. -/
def wMath : MathOps := ⟨fun _ => 0, fun _ => 0, fun _ _ => 0, fun _ _ => 0, fun _ => 0, 0⟩

/-- A concrete rasterizer used by witnesses: the identity transform is a
no-op wrapper, and drawing an image at the origin paints its in-range pixels
opaquely; every other primitive paints nothing. -/
def wRastFn : Cmd → ℕ → ℕ → Option Rgba
  | Cmd.transformed tx ty sc c, x, y =>
      if tx = 0 ∧ ty = 0 ∧ sc = 1 then wRastFn c x y else none
  | Cmd.drawImage ox oy i, x, y =>
      if ox = 0 ∧ oy = 0 ∧ x < i.width ∧ y < i.height then some (i.px x y)
      else none
  | _, _, _ => none

/-- A concrete font-metrics interpretation used by witnesses: every string
measures as the rectangle from `(0, -10)` with size `20 × 10` (an ascent-only
ink box, as Qt metrics report relative to the baseline). -/
def wMetrics : ℤ → String → RectQ := fun _ _ => ⟨0, -10, 20, 10⟩

/-- A concrete committed stack with one text annotation, used by witnesses. -/
def wStack : List Annot := [.text ⟨0, 0⟩ "Hi" DEFAULT_COLOR 16]

-- -- Theorems ------------------------------------------------------------------

/-- The second component of `arrow_dimensions`, unfolded. -/
theorem arrow_dimensions_snd (w L : ℚ) :
    (arrow_dimensions w L).2 = max (min (w * 4) (L * (45 / 100))) 6 := rfl

/-- C7: compositing an empty committed list is the identity on the bitmap:
for every rasterizer and math interpretation, `composite` of `[]` returns the
source bitmap unchanged. -/
theorem composite_empty_identity (rast : Raster) (m : MathOps) (img : Bitmap) :
    composite rast m img [] = img := rfl

/-- C2 counterexample: the claim "head size never exceeds 0.45 · L" fails on
the code.  At stroke width 1 and arrow length 5 (realizable exactly, e.g.
`end - start = (3, 4)` has `hypot = 5` since `5² = 3² + 4²`), the computed
head size is 6, which exceeds `0.45 · 5 = 2.25`: the source applies the cap
before the floor of 6, so the floor wins on short arrows. -/
theorem arrow_head_cap_counterexample :
    (5 : ℚ) ^ 2 = 3 ^ 2 + 4 ^ 2 ∧ (0 : ℚ) < 5 ∧
    (1 : ℚ) ≤ 1 ∧ (1 : ℚ) ≤ 20 ∧
    (45 / 100 : ℚ) * 5 < (arrow_dimensions 1 5).2 := by
  refine ⟨by norm_num, by norm_num, le_refl 1, by norm_num, ?_⟩
  rw [arrow_dimensions_snd]
  norm_num

/-- C2 amended: for stroke widths in `[1, 20]` and any positive length, the
head size computed by `_arrow_dimensions` is monotonically nondecreasing in
the stroke width, never falls below 6 units, and never exceeds
`max (0.45 · L) 6` (the 45% cap holds whenever it is at least the 6-unit
floor; on shorter arrows the floor takes precedence). -/
theorem arrow_dimensions_spec (w w2 L : ℚ) (h1 : 1 ≤ w) (h2 : w ≤ w2)
    (h3 : w2 ≤ 20) (hL : 0 < L) :
    (arrow_dimensions w L).2 ≤ (arrow_dimensions w2 L).2 ∧
    (arrow_dimensions w L).2 ≤ max ((45 / 100) * L) 6 ∧
    6 ≤ (arrow_dimensions w L).2 := by
  rw [arrow_dimensions_snd, arrow_dimensions_snd]
  refine ⟨?_, ?_, le_max_right _ _⟩
  · exact max_le_max (min_le_min (by linarith) (le_refl _)) (le_refl _)
  · have hm : min (w * 4) (L * (45 / 100)) ≤ (45 / 100) * L := by
      rw [mul_comm L]
      exact min_le_right _ _
    exact max_le_max hm (le_refl _)

/-- C2 witness: the amended bounds instantiated at widths 1 ≤ 2 and length 5. -/
theorem arrow_dimensions_spec_witness :
    (arrow_dimensions 1 5).2 ≤ (arrow_dimensions 2 5).2 ∧
    (arrow_dimensions 1 5).2 ≤ max ((45 / 100) * 5) 6 ∧
    6 ≤ (arrow_dimensions 1 5).2 :=
  arrow_dimensions_spec 1 2 5 (le_refl 1) (by norm_num) (by norm_num) (by norm_num)

/-- C8: the source's `ARROW_STYLES` tuple has exactly three entries and lacks
the `thick` style the spec and the repository's own test
(`test_arrow_styles_defined` asserts `len(ARROW_STYLES) == 4` and
`"thick" in ARROW_STYLES`) require; the style-label dict has no entry for
`thick` either. -/
theorem arrow_styles_lack_thick :
    ARROW_STYLES.length = 3 ∧ "thick" ∉ ARROW_STYLES ∧
    arrowStyleLabel "thick" = none := by
  refine ⟨rfl, by decide, rfl⟩

/-- C10: tool resolution precedence at pointer-down: a held Shift wins over
Ctrl which wins over Alt regardless of the other held modifiers; no held
modifier falls back to the toolbar selection; and a winning slot configured
as `none` falls back to the toolbar selection rather than consulting the next
held modifier. -/
theorem tool_from_modifiers_precedence (cfg : ModifierTools) (tb : String) :
    (∀ c a : Bool, tool_from_modifiers cfg tb ⟨true, c, a⟩ =
      (if cfg.shift.getD "arrow" = "none" then tb else cfg.shift.getD "arrow")) ∧
    (∀ a : Bool, tool_from_modifiers cfg tb ⟨false, true, a⟩ =
      (if cfg.ctrl.getD "oval" = "none" then tb else cfg.ctrl.getD "oval")) ∧
    (tool_from_modifiers cfg tb ⟨false, false, true⟩ =
      (if cfg.alt.getD "text" = "none" then tb else cfg.alt.getD "text")) ∧
    (tool_from_modifiers cfg tb ⟨false, false, false⟩ = tb) ∧
    (∀ c a : Bool, cfg.shift = some "none" →
      tool_from_modifiers cfg tb ⟨true, c, a⟩ = tb) := by
  refine ⟨fun c a => rfl, fun a => rfl, rfl, rfl, fun c a h => ?_⟩
  simp [tool_from_modifiers, h]

/-- C10 witness: with Shift mapped to `none` and Ctrl mapped to `oval`, a
pointer-down with both Shift and Ctrl held resolves to the toolbar tool. -/
theorem tool_from_modifiers_precedence_witness :
    tool_from_modifiers ⟨some "none", some "oval", none⟩ "freehand"
      ⟨true, true, false⟩ = "freehand" :=
  (tool_from_modifiers_precedence ⟨some "none", some "oval", none⟩
    "freehand").2.2.2.2 true false rfl

/-- C4: frame conditions of the history operations.  `undo` leaves both
stacks unchanged while a gesture is in progress (the `_drawing` flag, which
is set both for Drawing and for DraggingText gestures) or when the committed
list is empty, and otherwise pops the last committed annotation onto redo;
`redo` is guarded identically and pops the last redo entry back onto
committed; a newly committed annotation empties the redo list. -/
theorem undo_redo_frame (s : EditorState) (a : Annot) :
    (s.drawing = true → undo s = s ∧ redo s = s) ∧
    (s.undo_stack = [] → undo s = s) ∧
    (s.drawing = false → ∀ (l : List Annot) (x : Annot),
      s.undo_stack = l ++ [x] →
      undo s = { s with undo_stack := l, redo_stack := s.redo_stack ++ [x] }) ∧
    (s.redo_stack = [] → redo s = s) ∧
    (s.drawing = false → ∀ (l : List Annot) (x : Annot),
      s.redo_stack = l ++ [x] →
      redo s = { s with redo_stack := l, undo_stack := s.undo_stack ++ [x] }) ∧
    (commit s a).redo_stack = [] := by
  refine ⟨fun h => ⟨by simp [undo, h], by simp [redo, h]⟩, ?_, ?_, ?_, ?_, rfl⟩
  · intro h
    cases hd : s.drawing <;> simp [undo, hd, h]
  · intro hd l x h
    simp [undo, hd, h, List.getLast?_concat, List.dropLast_concat]
  · intro h
    cases hd : s.drawing <;> simp [redo, hd, h]
  · intro hd l x h
    simp [redo, hd, h, List.getLast?_concat, List.dropLast_concat]

/-- C4 witness: the frame conditions applied at concrete states — a drawing
state (no-op), a committed singleton (popped onto redo), and a commit
(clears redo). -/
theorem undo_redo_frame_witness :
    undo ⟨[sampleAnn], [], true, none, none⟩ = ⟨[sampleAnn], [], true, none, none⟩ ∧
    undo ⟨[sampleAnn], [sampleAnn2], false, none, none⟩ =
      ⟨[], [sampleAnn2, sampleAnn], false, none, none⟩ ∧
    (commit ⟨[], [sampleAnn2], false, none, none⟩ sampleAnn).redo_stack = [] := by
  refine ⟨((undo_redo_frame ⟨[sampleAnn], [], true, none, none⟩ sampleAnn).1 rfl).1,
          ?_,
          (undo_redo_frame ⟨[], [sampleAnn2], false, none, none⟩ sampleAnn).2.2.2.2.2⟩
  have h := (undo_redo_frame ⟨[sampleAnn], [sampleAnn2], false, none, none⟩
      sampleAnn).2.2.1 rfl [] sampleAnn rfl
  simpa using h

/-- The minimum-size test as a proposition, stated the way the claim states
it (freehand below 2 points; arrow of Euclidean length below 3, expressed by
the equivalent squared comparison; oval/rect with both extents below 3). -/
theorem min_size_discard_iff (ann : Annot) :
    min_size_discard ann = true ↔
      (match ann with
       | .freehand pts _ _ => pts.length < 2
       | .arrow st en _ _ _ => (en.x - st.x) ^ 2 + (en.y - st.y) ^ 2 < 9
       | .oval r _ _ => r.w < 3 ∧ r.h < 3
       | .rect r _ _ => r.w < 3 ∧ r.h < 3
       | .text _ _ _ _ => False) := by
  cases ann <;> simp [min_size_discard, MIN_DRAG_SIZE] <;> norm_num

/-- C5: on pointer-up ending a Drawing gesture (gesture flag set, no text
drag, an in-progress annotation present), the committed and redo lists are
left unchanged exactly when the annotation fails the minimum-size rule — a
freehand with fewer than 2 points, an arrow of Euclidean length below 3
(equivalently, squared length below 9), or an oval/rect whose width and
height are both below 3 — in which case the annotation is silently dropped;
otherwise it is appended to committed and the redo list is cleared.  The
operation is total: no input raises an error. -/
theorem mouse_release_discard (s : EditorState) (ann : Annot)
    (h1 : s.dragging_text_idx = none) (h2 : s.drawing = true)
    (h3 : s.current_ann = some ann) :
    (((mouse_release s).undo_stack = s.undo_stack ∧
      (mouse_release s).redo_stack = s.redo_stack) ↔ min_size_discard ann = true) ∧
    (∀ pts c w, min_size_discard (.freehand pts c w) = true ↔ pts.length < 2) ∧
    (∀ st en c w sty, min_size_discard (.arrow st en c w sty) = true ↔
      (en.x - st.x) ^ 2 + (en.y - st.y) ^ 2 < 9) ∧
    (∀ r c w, min_size_discard (.oval r c w) = true ↔ r.w < 3 ∧ r.h < 3) ∧
    (∀ r c w, min_size_discard (.rect r c w) = true ↔ r.w < 3 ∧ r.h < 3) ∧
    (min_size_discard ann = true →
      mouse_release s = { s with drawing := false, current_ann := none }) ∧
    (min_size_discard ann = false →
      mouse_release s = { s with drawing := false, current_ann := none, undo_stack := s.undo_stack ++ [ann], redo_stack := [] }) := by
  have hrel : mouse_release s =
      (if min_size_discard ann then
        { s with drawing := false, current_ann := none }
      else
        { s with drawing := false, current_ann := none,
                 undo_stack := s.undo_stack ++ [ann], redo_stack := [] }) := by
    simp [mouse_release, h1, h2, h3]
  refine ⟨?_,
    fun pts c w => by norm_num [min_size_discard, MIN_DRAG_SIZE],
    fun st en c w sty => by norm_num [min_size_discard, MIN_DRAG_SIZE],
    fun r c w => by norm_num [min_size_discard, MIN_DRAG_SIZE],
    fun r c w => by norm_num [min_size_discard, MIN_DRAG_SIZE],
    fun hm => by rw [hrel, if_pos hm],
    fun hm => by rw [hrel, if_neg (by simp [hm])]⟩
  cases hmin : min_size_discard ann with
  | true =>
    rw [hrel, if_pos hmin]
    simp
  | false =>
    rw [hrel, if_neg (by simp [hmin])]
    simp

/-- C5 witness: a Drawing gesture ending on a 2-unit arrow is silently
discarded (both lists unchanged), and one ending on a 10×10 rectangle is
committed. -/
theorem mouse_release_discard_witness :
    ((mouse_release ⟨[sampleAnn], [sampleAnn2], true,
        some (.arrow ⟨0, 0⟩ ⟨2, 0⟩ DEFAULT_COLOR 3 "standard"), none⟩).undo_stack
      = [sampleAnn] ∧
     (mouse_release ⟨[sampleAnn], [sampleAnn2], true,
        some (.arrow ⟨0, 0⟩ ⟨2, 0⟩ DEFAULT_COLOR 3 "standard"), none⟩).redo_stack
      = [sampleAnn2]) ∧
    mouse_release ⟨[], [sampleAnn2], true, some sampleAnn, none⟩ =
      ⟨[sampleAnn], [], false, none, none⟩ := by
  constructor
  · exact ((mouse_release_discard
      ⟨[sampleAnn], [sampleAnn2], true,
        some (.arrow ⟨0, 0⟩ ⟨2, 0⟩ DEFAULT_COLOR 3 "standard"), none⟩
      (.arrow ⟨0, 0⟩ ⟨2, 0⟩ DEFAULT_COLOR 3 "standard")
      rfl rfl rfl).1).mpr (by norm_num [min_size_discard, MIN_DRAG_SIZE])
  · have h := (mouse_release_discard
      ⟨[], [sampleAnn2], true, some sampleAnn, none⟩ sampleAnn
      rfl rfl rfl).2.2.2.2.2.2 (by decide)
    simpa using h

/-- C6 counterexample: the claim "`toImageCoords` returns None for every
screen point outside the computed display rect" fails on the code.  For a
2×3 image in a 2×2 display area the scale is 2/3 and the display rect is
`(0, 0, 1, 2)` (its width is truncated by `int(iw * scale)` from 4/3 down
to 1), so the screen column `x = 1` lies at/beyond the rect's right edge —
outside the rect — yet `_to_image_coords` maps `(1, 0)` to the in-bounds
image point `(3/2, 0)` and returns it instead of None: the code tests the
untruncated image bounds, not the display rect. -/
theorem to_image_coords_outside_rect_counterexample :
    compute_layout 2 2 2 3 = ⟨0, 0, 1, 2, 2 / 3⟩ ∧
    (compute_layout 2 2 2 3).rect_x + (compute_layout 2 2 2 3).rect_w ≤ 1 ∧
    to_image_coords (compute_layout 2 2 2 3) 2 3 1 0 = some ⟨3 / 2, 0⟩ := by
  have h : compute_layout 2 2 2 3 = ⟨0, 0, 1, 2, 2 / 3⟩ := by
    norm_num [compute_layout, min_def]
  refine ⟨h, by rw [h]; norm_num, ?_⟩
  rw [h]
  norm_num [to_image_coords]

/-- C6 amended: the layout computes `scale = min(sw/iw, sh/ih, 1)`, truncated
display extents, and centering offsets; `toImageCoords` returns None for
every screen point outside the untruncated displayed-image region
`[rect_x, rect_x + iw·scale) × [rect_y, rect_y + ih·scale)` (which can be up
to one pixel wider/taller than the integer display rect, as the
counterexample forces); `clampToImage` always lands in
`[0, iw-1] × [0, ih-1]`; and the concrete 200×150-in-400×300 scenario gives
scale 1, offsets (100, 75), and maps screen (150, 100) to image (50, 25). -/
theorem geometry_mapper_spec (sw sh iw ih : ℤ) (lay : Layout)
    (hsw : 1 ≤ sw) (hsh : 1 ≤ sh) (hiw : 1 ≤ iw) (hih : 1 ≤ ih)
    (hlay : lay = compute_layout sw sh iw ih) :
    (lay.scale = min ((sw : ℚ) / (iw : ℚ)) (min ((sh : ℚ) / (ih : ℚ)) 1) ∧
     lay.rect_w = ⌊(iw : ℚ) * lay.scale⌋ ∧
     lay.rect_h = ⌊(ih : ℚ) * lay.scale⌋ ∧
     lay.rect_x = (sw - lay.rect_w) / 2 ∧
     lay.rect_y = (sh - lay.rect_h) / 2) ∧
    (∀ sx sy : ℤ,
      ((sx : ℚ) < (lay.rect_x : ℚ) ∨ (sy : ℚ) < (lay.rect_y : ℚ) ∨
       (lay.rect_x : ℚ) + (iw : ℚ) * lay.scale ≤ (sx : ℚ) ∨
       (lay.rect_y : ℚ) + (ih : ℚ) * lay.scale ≤ (sy : ℚ)) →
      to_image_coords lay iw ih sx sy = none) ∧
    (∀ sx sy : ℤ,
      0 ≤ (clamp_to_image lay iw ih sx sy).x ∧
      (clamp_to_image lay iw ih sx sy).x ≤ (iw : ℚ) - 1 ∧
      0 ≤ (clamp_to_image lay iw ih sx sy).y ∧
      (clamp_to_image lay iw ih sx sy).y ≤ (ih : ℚ) - 1) ∧
    (compute_layout 400 300 200 150 = ⟨100, 75, 200, 150, 1⟩ ∧
     to_image_coords (compute_layout 400 300 200 150) 200 150 150 100 =
       some ⟨50, 25⟩) := by
  have hne : ¬ (iw ≤ 0 ∨ ih ≤ 0) := by omega
  have hiwq : (0 : ℚ) < (iw : ℚ) := by exact_mod_cast (by omega : (0 : ℤ) < iw)
  have hihq : (0 : ℚ) < (ih : ℚ) := by exact_mod_cast (by omega : (0 : ℤ) < ih)
  have hswq : (0 : ℚ) < (sw : ℚ) := by exact_mod_cast (by omega : (0 : ℤ) < sw)
  have hshq : (0 : ℚ) < (sh : ℚ) := by exact_mod_cast (by omega : (0 : ℤ) < sh)
  have hscale_def : lay.scale =
      min ((sw : ℚ) / (iw : ℚ)) (min ((sh : ℚ) / (ih : ℚ)) 1) := by
    rw [hlay]; simp [compute_layout, hne]
  have hscale_pos : 0 < lay.scale := by
    rw [hscale_def]
    exact lt_min (div_pos hswq hiwq) (lt_min (div_pos hshq hihq) one_pos)
  refine ⟨⟨hscale_def, ?_, ?_, ?_, ?_⟩, ?_, ?_, ?_, ?_⟩
  · rw [hlay]; simp [compute_layout, hne]
  · rw [hlay]; simp [compute_layout, hne]
  · rw [hlay]; simp [compute_layout, hne]
  · rw [hlay]; simp [compute_layout, hne]
  · intro sx sy hcase
    rw [to_image_coords, if_neg (not_le.mpr hscale_pos)]
    have hcond : ((sx : ℚ) - (lay.rect_x : ℚ)) / lay.scale < 0 ∨
        ((sy : ℚ) - (lay.rect_y : ℚ)) / lay.scale < 0 ∨
        (iw : ℚ) ≤ ((sx : ℚ) - (lay.rect_x : ℚ)) / lay.scale ∨
        (ih : ℚ) ≤ ((sy : ℚ) - (lay.rect_y : ℚ)) / lay.scale := by
      rcases hcase with h | h | h | h
      · exact Or.inl (div_neg_of_neg_of_pos (by linarith) hscale_pos)
      · exact Or.inr (Or.inl (div_neg_of_neg_of_pos (by linarith) hscale_pos))
      · refine Or.inr (Or.inr (Or.inl ?_))
        rw [le_div_iff hscale_pos]
        linarith
      · refine Or.inr (Or.inr (Or.inr ?_))
        rw [le_div_iff hscale_pos]
        linarith
    simp only [hcond, if_pos]
  · intro sx sy
    rw [clamp_to_image, if_neg (not_le.mpr hscale_pos)]
    have hiw1 : (1 : ℚ) ≤ (iw : ℚ) := by exact_mod_cast hiw
    have hih1 : (1 : ℚ) ≤ (ih : ℚ) := by exact_mod_cast hih
    refine ⟨le_max_left _ _, max_le (by linarith) (min_le_right _ _),
            le_max_left _ _, max_le (by linarith) (min_le_right _ _)⟩
  · norm_num [compute_layout, min_def]
  · have h : compute_layout 400 300 200 150 = ⟨100, 75, 200, 150, 1⟩ := by
      norm_num [compute_layout, min_def]
    rw [h]
    norm_num [to_image_coords]

/-- C6 witness: the amended mapper properties instantiated at the claim's
concrete scenario (200×150 image in a 400×300 display area). -/
theorem geometry_mapper_spec_witness :
    compute_layout 400 300 200 150 = ⟨100, 75, 200, 150, 1⟩ ∧
    to_image_coords (compute_layout 400 300 200 150) 200 150 150 100 =
      some ⟨50, 25⟩ :=
  (geometry_mapper_spec 400 300 200 150 (compute_layout 400 300 200 150)
    (by norm_num) (by norm_num) (by norm_num) (by norm_num) rfl).2.2.2

/-- Undoing never changes the gesture flag. -/
theorem undo_drawing (s : EditorState) : (undo s).drawing = s.drawing := by
  rw [undo]
  rcases hd : s.drawing
  · rcases hl : s.undo_stack.getLast? with _ | a <;> simp [hd, hl]
  · simp [hd]

/-- Redo of undo restores the state exactly, outside a gesture and with a
nonempty committed list. -/
theorem redo_undo_restore (s : EditorState) (h1 : s.drawing = false)
    (h2 : s.undo_stack ≠ []) : redo (undo s) = s := by
  rcases List.eq_nil_or_concat s.undo_stack with h | ⟨l, x, h⟩
  · exact absurd h h2
  rw [List.concat_eq_append] at h
  have hu : undo s =
      { s with undo_stack := l, redo_stack := s.redo_stack ++ [x] } := by
    rw [undo, h1]
    simp [h, List.getLast?_concat, List.dropLast_concat]
  rw [hu, redo]
  simp [h1, List.getLast?_concat, List.dropLast_concat, ← h]
  rw [← h1]

/-- Undoing with a nonempty committed list shortens it by one. -/
theorem undo_length (s : EditorState) (h1 : s.drawing = false)
    (h2 : s.undo_stack ≠ []) :
    (undo s).undo_stack.length = s.undo_stack.length - 1 := by
  rcases List.eq_nil_or_concat s.undo_stack with h | ⟨l, x, h⟩
  · exact absurd h h2
  rw [List.concat_eq_append] at h
  rw [undo, h1]
  simp [h, List.getLast?_concat, List.dropLast_concat]

/-- Iterated undo never changes the gesture flag. -/
theorem undoN_drawing (n : ℕ) (s : EditorState) :
    (undoN n s).drawing = s.drawing := by
  induction n with
  | zero => rfl
  | succ n ih => rw [undoN, undo_drawing, ih]

/-- Iterated undo pops exactly one entry per step while enough remain. -/
theorem undoN_length (s : EditorState) (h1 : s.drawing = false) (n : ℕ)
    (hn : n ≤ s.undo_stack.length) :
    (undoN n s).undo_stack.length = s.undo_stack.length - n := by
  induction n with
  | zero => rfl
  | succ n ih =>
    have hle : n ≤ s.undo_stack.length := le_of_lt (Nat.lt_of_succ_le hn)
    have hlen : (undoN n s).undo_stack.length = s.undo_stack.length - n := ih hle
    have hne : (undoN n s).undo_stack ≠ [] := by
      intro hempty
      rw [hempty] at hlen
      simp at hlen
      omega
    rw [undoN, undo_length (undoN n s) (by rw [undoN_drawing]; exact h1) hne,
        hlen]
    omega

/-- N redos after N undos restore the state exactly, outside a gesture. -/
theorem redoN_undoN (s : EditorState) (h1 : s.drawing = false) (n : ℕ)
    (hn : n ≤ s.undo_stack.length) : redoN n (undoN n s) = s := by
  induction n with
  | zero => rfl
  | succ n ih =>
    have hle : n ≤ s.undo_stack.length := le_of_lt (Nat.lt_of_succ_le hn)
    have hne : (undoN n s).undo_stack ≠ [] := by
      intro hempty
      have hlen := undoN_length s h1 n hle
      rw [hempty] at hlen
      simp at hlen
      omega
    show redoN n (redo (undo (undoN n s))) = s
    rw [redo_undo_restore (undoN n s) (by rw [undoN_drawing]; exact h1) hne]
    exact ih hle

/-- Committing a list appends it to the committed list, in order. -/
theorem commitN_stack (anns : List Annot) (s : EditorState) :
    (commitN s anns).undo_stack = s.undo_stack ++ anns := by
  induction anns generalizing s with
  | nil => simp [commitN]
  | cons a as ih =>
    show (commitN (commit s a) as).undo_stack = _
    rw [ih]
    simp [commit]

/-- Committing never changes the gesture flag. -/
theorem commitN_drawing (anns : List Annot) (s : EditorState) :
    (commitN s anns).drawing = s.drawing := by
  induction anns generalizing s with
  | nil => rfl
  | cons a as ih =>
    show (commitN (commit s a) as).drawing = _
    rw [ih]
    rfl

/-- C3: for every edit session not in a gesture and every batch of at most 50
annotations, committing them, undoing N = batch-length times, then redoing N
times reproduces the committed list exactly as it was after the commits. -/
theorem commit_undo_redo_roundtrip (s : EditorState) (anns : List Annot)
    (h1 : s.drawing = false) (h50 : anns.length ≤ 50) :
    (redoN anns.length (undoN anns.length (commitN s anns))).undo_stack =
      (commitN s anns).undo_stack := by
  have hd : (commitN s anns).drawing = false := by
    rw [commitN_drawing]; exact h1
  have hlen : anns.length ≤ (commitN s anns).undo_stack.length := by
    rw [commitN_stack]
    simp
  rw [redoN_undoN (commitN s anns) hd anns.length hlen]

/-- C3 witness: the round trip instantiated with two commits onto an empty
session. -/
theorem commit_undo_redo_roundtrip_witness :
    (redoN 2 (undoN 2 (commitN ⟨[], [], false, none, none⟩
        [sampleAnn, sampleAnn2]))).undo_stack =
      (commitN ⟨[], [], false, none, none⟩ [sampleAnn, sampleAnn2]).undo_stack :=
  commit_undo_redo_roundtrip ⟨[], [], false, none, none⟩ [sampleAnn, sampleAnn2]
    rfl (by norm_num)

/-- Extending the scan window past a non-hit index preserves the
"greatest hit index" characterization. -/
theorem hit_window_extend (metrics : ℤ → String → RectQ) (stack : List Annot)
    (p : Pt) (n i : ℕ) (hn : hit_at metrics stack p n = false) :
    (i < n ∧ hit_at metrics stack p i = true ∧
      ∀ j, i < j → j < n → hit_at metrics stack p j = false) ↔
    (i < n + 1 ∧ hit_at metrics stack p i = true ∧
      ∀ j, i < j → j < n + 1 → hit_at metrics stack p j = false) := by
  constructor
  · rintro ⟨h1, h2, h3⟩
    refine ⟨by omega, h2, fun j hj1 hj2 => ?_⟩
    rcases Nat.lt_succ_iff_lt_or_eq.mp hj2 with h | h
    · exact h3 j hj1 h
    · rw [h]; exact hn
  · rintro ⟨h1, h2, h3⟩
    have hi : i ≠ n := by
      intro h
      rw [h, hn] at h2
      simp at h2
    exact ⟨by omega, h2, fun j hj1 hj2 => h3 j hj1 (by omega)⟩

/-- The hit-test loop returns None exactly when no scanned index hits. -/
theorem hit_test_aux_none (metrics : ℤ → String → RectQ) (stack : List Annot)
    (p : Pt) (n : ℕ) :
    hit_test_text_aux metrics stack p n = none ↔
      ∀ j, j < n → hit_at metrics stack p j = false := by
  induction n with
  | zero => simp [hit_test_text_aux]
  | succ n ih =>
    rw [hit_test_text_aux]
    cases hs : stack[n]? with
    | some ann =>
      cases hh : is_text_hit metrics ann p with
      | true =>
        simp only [hh, if_true]
        constructor
        · intro hcontra; simp at hcontra
        · intro hall
          have h := hall n (Nat.lt_succ_self n)
          simp [hit_at, hs, hh] at h
      | false =>
        simp only [hh, if_false, Bool.false_eq_true, ih]
        constructor
        · intro hall j hj
          rcases Nat.lt_succ_iff_lt_or_eq.mp hj with h | h
          · exact hall j h
          · rw [h, hit_at, hs]; exact hh
        · intro hall j hj
          exact hall j (by omega)
    | none =>
      rw [ih]
      constructor
      · intro hall j hj
        rcases Nat.lt_succ_iff_lt_or_eq.mp hj with h | h
        · exact hall j h
        · rw [h, hit_at, hs]
      · intro hall j hj
        exact hall j (by omega)

/-- The hit-test loop returns an index exactly when it is the greatest
scanned index that hits. -/
theorem hit_test_aux_some (metrics : ℤ → String → RectQ) (stack : List Annot)
    (p : Pt) (n i : ℕ) :
    hit_test_text_aux metrics stack p n = some i ↔
      (i < n ∧ hit_at metrics stack p i = true ∧
       ∀ j, i < j → j < n → hit_at metrics stack p j = false) := by
  induction n with
  | zero => simp [hit_test_text_aux]
  | succ n ih =>
    rw [hit_test_text_aux]
    cases hs : stack[n]? with
    | some ann =>
      cases hh : is_text_hit metrics ann p with
      | true =>
        simp only [hh, if_true, Option.some.injEq]
        constructor
        · rintro rfl
          refine ⟨Nat.lt_succ_self n, by rw [hit_at, hs]; exact hh,
                  fun j hj1 hj2 => by omega⟩
        · rintro ⟨h1, h2, h3⟩
          by_contra hne
          have hi_lt : i < n := by omega
          have h := h3 n hi_lt (Nat.lt_succ_self n)
          simp [hit_at, hs, hh] at h
      | false =>
        simp only [hh, if_false, Bool.false_eq_true, ih]
        exact hit_window_extend metrics stack p n i (by rw [hit_at, hs]; exact hh)
    | none =>
      rw [ih]
      exact hit_window_extend metrics stack p n i (by rw [hit_at, hs])

/-- C9: the text hit-test scans the committed annotations topmost-first
(reverse insertion order) and returns the greatest index whose annotation is
accepted, or None when none is; an annotation is accepted exactly when it is
a Text annotation whose rendered bounding box, padded by 4 units on each
side, contains the click point (every other variant never hits). -/
theorem hit_test_text_topmost (metrics : ℤ → String → RectQ)
    (stack : List Annot) (p : Pt) :
    (∀ i, hit_test_text metrics stack p = some i ↔
      (i < stack.length ∧ hit_at metrics stack p i = true ∧
       ∀ j, i < j → j < stack.length → hit_at metrics stack p j = false)) ∧
    (hit_test_text metrics stack p = none ↔
      ∀ j, j < stack.length → hit_at metrics stack p j = false) ∧
    (∀ i ann, stack[i]? = some ann →
      hit_at metrics stack p i = is_text_hit metrics ann p) ∧
    (∀ pos txt c fs, is_text_hit metrics (.text pos txt c fs) p =
      ((text_bounding_rect metrics pos txt fs).adjust (-4) (-4) 4 4).containsPt p) ∧
    (∀ pts c w, is_text_hit metrics (.freehand pts c w) p = false) ∧
    (∀ st en c w sty, is_text_hit metrics (.arrow st en c w sty) p = false) ∧
    (∀ r c w, is_text_hit metrics (.oval r c w) p = false) ∧
    (∀ r c w, is_text_hit metrics (.rect r c w) p = false) :=
  ⟨fun i => hit_test_aux_some metrics stack p stack.length i,
   hit_test_aux_none metrics stack p stack.length,
   fun i ann h => by rw [hit_at, h],
   fun pos txt c fs => rfl, fun pts c w => rfl, fun st en c w sty => rfl,
   fun r c w => rfl, fun r c w => rfl⟩

/-- C9 witness: a click at (1, 1) on a stack holding one text annotation at
the origin (with the concrete metrics interpretation) hits index 0. -/
theorem hit_test_text_topmost_witness :
    hit_test_text wMetrics wStack ⟨1, 1⟩ = some 0 :=
  ((hit_test_text_topmost wMetrics wStack ⟨1, 1⟩).1 0).mpr
    ⟨by norm_num [wStack],
     by norm_num [hit_at, wStack, is_text_hit, text_bounding_rect, wMetrics,
       RectQ.adjust, RectQ.containsPt, min_def, max_def],
     fun j hj1 hj2 => by simp [wStack] at hj2; omega⟩

/-- The pixel painted by a command sequence determines the result of applying
it: the last primitive that paints the pixel wins, else the backdrop shows. -/
theorem applyCmds_px (rast : Raster) (cmds : List Cmd) :
    ∀ (img : Bitmap) (x y : ℕ),
      (applyCmds rast img cmds).px x y =
        (paintAt rast x y cmds).getD (img.px x y) := by
  induction cmds with
  | nil => intro img x y; rfl
  | cons c cs ih =>
    intro img x y
    show (applyCmds rast (applyCmd rast img c) cs).px x y = _
    rw [ih, paintAt]
    rcases hp : paintAt rast x y cs with _ | v <;> simp [hp, applyCmd]

/-- Painting by an appended command sequence: the later segment wins. -/
theorem paintAt_append (rast : Raster) (x y : ℕ) (l1 l2 : List Cmd) :
    paintAt rast x y (l1 ++ l2) =
      (match paintAt rast x y l2 with
       | some v => some v
       | none => paintAt rast x y l1) := by
  induction l1 with
  | nil =>
    rcases hp : paintAt rast x y l2 with _ | v <;> simp [paintAt, hp]
  | cons c cs ih =>
    show (match paintAt rast x y (cs ++ l2) with
          | some v => some v
          | none => rast c x y) = _
    rw [ih]
    rcases hp2 : paintAt rast x y l2 with _ | v2 <;>
      rcases hp1 : paintAt rast x y cs with _ | v1 <;> simp [paintAt, hp1, hp2]

/-- Wrapping every command in the identity display transform does not change
the painted pixel, for any rasterizer treating the identity transform as a
no-op. -/
theorem paintAt_map_transform (rast : Raster)
    (hid : ∀ c x y, rast (Cmd.transformed 0 0 1 c) x y = rast c x y)
    (x y : ℕ) (l : List Cmd) :
    paintAt rast x y (l.map (Cmd.transformed 0 0 1)) = paintAt rast x y l := by
  induction l with
  | nil => rfl
  | cons c cs ih =>
    show (match paintAt rast x y (cs.map (Cmd.transformed 0 0 1)) with
          | some v => some v
          | none => rast (Cmd.transformed 0 0 1 c) x y) = _
    rw [ih, hid, paintAt]

/-- At native resolution (display area exactly the image size) the layout
degenerates to scale 1 and zero offset. -/
theorem compute_layout_native (w h : ℕ) (hw : 1 ≤ w) (hh : 1 ≤ h) :
    compute_layout (w : ℤ) (h : ℤ) (w : ℤ) (h : ℤ) =
      ⟨0, 0, (w : ℤ), (h : ℤ), 1⟩ := by
  have hne : ¬ ((w : ℤ) ≤ 0 ∨ (h : ℤ) ≤ 0) := by omega
  have hwq : ((w : ℚ)) ≠ 0 := Nat.cast_ne_zero.mpr (by omega)
  have hhq : ((h : ℚ)) ≠ 0 := Nat.cast_ne_zero.mpr (by omega)
  simp only [compute_layout, if_neg hne, Int.cast_natCast]
  rw [div_self hwq, div_self hhq]
  norm_num [Int.floor_natCast]

/-- C1: what-you-see-is-what-you-get.  For every rasterizer (for which the
identity transform is a no-op and drawing the source image at the origin
paints its pixels opaquely), every interpretation of the external math
functions and image scaler, every starting widget canvas and every committed
list: replaying the per-variant drawing routines at 1:1 scale onto the source
(`_composite`) produces, on the image domain, pixels identical to what
`paintEvent` would show at native resolution (scale 1, zero offset); and
compositing is idempotent on every pixel. -/
theorem composite_refines_render (rast : Raster) (m : MathOps)
    (scaleImg : Bitmap → ℤ → ℤ → Bitmap) (canvas img : Bitmap)
    (anns : List Annot) (hw : 1 ≤ img.width) (hh : 1 ≤ img.height)
    (hscale : scaleImg img (img.width : ℤ) (img.height : ℤ) = img)
    (hid : ∀ c x y, rast (Cmd.transformed 0 0 1 c) x y = rast c x y)
    (himgdraw : ∀ x y, x < img.width → y < img.height →
      rast (Cmd.drawImage 0 0 img) x y = some (img.px x y)) :
    (∀ x y, x < img.width → y < img.height →
      (render_native rast m scaleImg canvas img anns).px x y =
        (composite rast m img anns).px x y) ∧
    (∀ x y, (composite rast m (composite rast m img anns) anns).px x y =
      (composite rast m img anns).px x y) := by
  constructor
  · intro x y hx hy
    have hlay := compute_layout_native img.width img.height hw hh
    have hcmds : paint_event_cmds m scaleImg img
        (compute_layout (img.width : ℤ) (img.height : ℤ) (img.width : ℤ)
          (img.height : ℤ)) anns false none =
        [Cmd.fillAll DIM_COLOR, Cmd.drawImage 0 0 img] ++
          (composite_cmds m anns).map (Cmd.transformed 0 0 1) := by
      rw [hlay]
      simp [paint_event_cmds, hscale]
    have hrn : render_native rast m scaleImg canvas img anns =
        applyCmds rast canvas (paint_event_cmds m scaleImg img
          (compute_layout (img.width : ℤ) (img.height : ℤ) (img.width : ℤ)
            (img.height : ℤ)) anns false none) := rfl
    have hdraw : paintAt rast x y [Cmd.drawImage 0 0 img] =
        some (img.px x y) := himgdraw x y hx hy
    have hbg : paintAt rast x y [Cmd.fillAll DIM_COLOR, Cmd.drawImage 0 0 img]
        = some (img.px x y) := by
      show (match paintAt rast x y [Cmd.drawImage 0 0 img] with
            | some v => some v
            | none => rast (Cmd.fillAll DIM_COLOR) x y) = _
      rw [hdraw]
    rw [hrn, hcmds, applyCmds_px, paintAt_append, hbg,
        paintAt_map_transform rast hid x y]
    simp only [composite]
    rw [applyCmds_px]
    rcases hpc : paintAt rast x y (composite_cmds m anns) with _ | v <;>
      simp [hpc]
  · intro x y
    simp only [composite]
    rw [applyCmds_px, applyCmds_px]
    rcases hpc : paintAt rast x y (composite_cmds m anns) with _ | v <;>
      simp [hpc]

/-- C1 witness: the pixel identity and idempotence instantiated with the
concrete rasterizer, math interpretation, identity scaler, a 1×1 white
bitmap, and a single committed rectangle. -/
theorem composite_refines_render_witness :
    (render_native wRastFn wMath (fun i _ _ => i) wImg wImg [sampleAnn]).px 0 0 =
      (composite wRastFn wMath wImg [sampleAnn]).px 0 0 ∧
    (composite wRastFn wMath (composite wRastFn wMath wImg [sampleAnn])
        [sampleAnn]).px 0 0 =
      (composite wRastFn wMath wImg [sampleAnn]).px 0 0 := by
  have h := composite_refines_render wRastFn wMath (fun i _ _ => i) wImg wImg
    [sampleAnn] (le_refl 1) (le_refl 1) rfl
    (fun c x y => by simp [wRastFn])
    (fun x y hx hy => by simp [wRastFn, wImg] at hx hy ⊢; omega)
  exact ⟨h.1 0 0 (by norm_num [wImg]) (by norm_num [wImg]), h.2 0 0⟩
